import Mathlib

set_option maxRecDepth 8000

/-!
Shallow embedding of the aggregation engine of src/src/lib.rs
(`fetch_organization_data` and the data model around it), together with
theorems settling the specification claims about it.

Modelling conventions:
* JSON values carried in response bodies are modelled by the inductive
  `Json` (numbers restricted to integers, which is all the payloads here
  use).  A response body is `Option Json`, where `none` stands for text
  that is not well-formed JSON; decoding into the expected shape is a
  separate step, exactly as `serde_json::from_str` performs both.
* One HTTP GET is modelled by a `World` function from the request URL to a
  `FetchOutcome`: `sendError` is a failed `send()`, `textError` a failed
  `.text()`, and `ok status body` a completed response.  The status code
  is carried so that theorems can speak about it; the engine itself,
  faithfully to the source, never inspects it.
* `anyhow` errors surface to the caller as the message of their topmost
  context (that is what `err.to_string()` shows), so errors are modelled
  by that message string.  A Rust panic (`unwrap` on `None`) is the
  separate outcome `RunError.panic`.
-/

/-- JSON values as parsed by `serde_json` (integer numbers only). -/
inductive Json where
  | null : Json
  | bool : Bool → Json
  | num : Int → Json
  | str : String → Json
  | arr : List Json → Json
  | obj : List (String × Json) → Json

/-- One hexadecimal digit, lowercase, as `serde_json` prints in escapes. -/
def hexDigit (n : Nat) : Char :=
  if n < 10 then Char.ofNat (48 + n) else Char.ofNat (87 + n)

/-- Escaping of a single character inside a JSON string literal, following
the `serde_json` serializer. -/
def escapeChar (c : Char) : List Char :=
  if c = '"' then ['\\', '"']
  else if c = '\\' then ['\\', '\\']
  else if c = Char.ofNat 8 then ['\\', 'b']
  else if c = Char.ofNat 9 then ['\\', 't']
  else if c = Char.ofNat 10 then ['\\', 'n']
  else if c = Char.ofNat 12 then ['\\', 'f']
  else if c = Char.ofNat 13 then ['\\', 'r']
  else if c.toNat < 32 then ['\\', 'u', '0', '0', hexDigit (c.toNat / 16), hexDigit (c.toNat % 16)]
  else [c]

/-- A JSON string literal: quotes around the escaped characters. -/
def serializeString (s : String) : String :=
  ⟨'"' :: (s.data.map escapeChar).flatten ++ ['"']⟩

mutual

/-- Compact serialization of a JSON value — what `Value::to_string()`
(`Display`) produces in the source, e.g. for `reviewer["login"]` and
`pull["number"]`. -/
def Json.serialize : Json → String
  | .null => "null"
  | .bool b => if b then "true" else "false"
  | .num n => toString n
  | .str s => serializeString s
  | .arr xs => "[" ++ serializeItems xs ++ "]"
  | .obj fields => "\x7b" ++ serializeFields fields ++ "\x7d"

/-- Comma-joined serialization of array items. -/
def serializeItems : List Json → String
  | [] => ""
  | [x] => Json.serialize x
  | x :: y :: rest => Json.serialize x ++ "," ++ serializeItems (y :: rest)

/-- Comma-joined serialization of object fields. -/
def serializeFields : List (String × Json) → String
  | [] => ""
  | [kv] => serializeString kv.1 ++ ":" ++ Json.serialize kv.2
  | kv :: p :: rest =>
    serializeString kv.1 ++ ":" ++ Json.serialize kv.2 ++ "," ++ serializeFields (p :: rest)

end

/-- `value[key]` of `serde_json`: field of an object, `Null` when the key
is missing or the value is not an object. -/
def Json.getField : Json → String → Json
  | .obj fields, k =>
    match fields.find? (fun kv => kv.1 == k) with
    | some kv => kv.2
    | none => .null
  | _, _ => .null

/-- `Value::as_array`. -/
def Json.asArray : Json → Option (List Json)
  | .arr xs => some xs
  | _ => none

/-- `Value::as_str`. -/
def Json.asStr : Json → Option String
  | .str s => some s
  | _ => none

/-- Whether `pat` is a prefix of the character list. -/
def isPrefixList : List Char → List Char → Bool
  | [], _ => true
  | _ :: _, [] => false
  | a :: as, b :: bs => a == b && isPrefixList as bs

/-- Whether `pat` occurs as a contiguous substring. -/
def containsSub (pat : List Char) : List Char → Bool
  | [] => isPrefixList pat []
  | c :: rest => isPrefixList pat (c :: rest) || containsSub pat rest

/-- Leftmost, non-overlapping replacement of `pat` by `rep`, the semantics
of Rust `str::replace` (for the non-empty patterns used here).  The fuel
argument is instantiated with the length of the input, which each step
consumes at least one character of, so the `0` fallback is never reached. -/
def replaceAux (pat rep : List Char) : Nat → List Char → List Char
  | _, [] => []
  | 0, s => s
  | fuel + 1, c :: rest =>
    if !pat.isEmpty && isPrefixList pat (c :: rest) then
      rep ++ replaceAux pat rep fuel ((c :: rest).drop pat.length)
    else
      c :: replaceAux pat rep fuel rest

/-- Rust `str::replace` on strings. -/
def strReplace (s pat rep : String) : String :=
  ⟨replaceAux pat.data rep.data s.data.length s.data⟩

/-- The three-substitution URL rewrite applied to `pull["url"]`:
`.replace("api.", "").replace("repos/", "").replace("pulls", "pull")`. -/
def rewriteUrl (u : String) : String :=
  strReplace (strReplace (strReplace u "api." "") "repos/" "") "pulls" "pull"

/-- `struct PullRequest` of the source. -/
structure PullRequest where
  id : String
  url : String
  repo_name : String
deriving DecidableEq

/-- `struct Reviewer` of the source. -/
structure Reviewer where
  name : String
  assigned_pull_requests : List PullRequest
deriving DecidableEq

/-- `struct Repository` of the source (only the `name` field is kept by
the deserializer). -/
structure Repository where
  name : String
deriving DecidableEq

/-- `struct Organization` of the source. -/
structure Organization where
  reviewers : List Reviewer
  repositories : List Repository
deriving DecidableEq

/-- `struct Form` of the source. -/
structure Form where
  organization : String
  token : String

/-- How one modelled HTTP GET ends: `send()` fails, `.text()` fails, or a
response with a status code and a body (`none` = body is not well-formed
JSON) is obtained. -/
inductive FetchOutcome where
  | sendError : FetchOutcome
  | textError : FetchOutcome
  | ok : Nat → Option Json → FetchOutcome

/-- The remote API, as a deterministic map from request URL to outcome. -/
def World : Type := String → FetchOutcome

/-- How a run of `fetch_organization_data` fails: a Rust panic, or an
`anyhow` error carrying the message of its topmost context. -/
inductive RunError where
  | panic : RunError
  | err : String → RunError
deriving DecidableEq

instance instDecEqExcept {ε α : Type} [DecidableEq ε] [DecidableEq α] :
    DecidableEq (Except ε α) := fun a b =>
  match a, b with
  | .error x, .error y =>
    if h : x = y then .isTrue (by rw [h]) else .isFalse (by intro hc; cases hc; exact h rfl)
  | .error _, .ok _ => .isFalse (by intro hc; cases hc)
  | .ok _, .error _ => .isFalse (by intro hc; cases hc)
  | .ok x, .ok y =>
    if h : x = y then .isTrue (by rw [h]) else .isFalse (by intro hc; cases hc; exact h rfl)

/-- `serde_json::from_str::<Vec<Repository>>` on one array element: the
element must be an object whose `name` field is a string (other fields are
ignored). -/
def decodeRepo (j : Json) : Option String :=
  match j.getField "name" with
  | .str s => some s
  | _ => none

/-- `serde_json::from_str::<Vec<Repository>>` on a body: a JSON array all
of whose elements decode, else failure. -/
def decodeRepoList : Option Json → Option (List String)
  | some (.arr xs) => xs.mapM decodeRepo
  | _ => none

/-- `serde_json::from_str::<Vec<serde_json::Value>>` on a body: any JSON
array. -/
def decodePullList : Option Json → Option (List Json)
  | some (.arr xs) => some xs
  | _ => none

/-- `Vec::iter().position(...)` of the source. -/
def position {α : Type} (p : α → Bool) : List α → Option Nat
  | [] => none
  | a :: as => if p a then some 0 else (position p as).map (· + 1)

/-- In-place update of the element at an index (`org.reviewers[index]`
mutation of the source); out-of-range indices change nothing. -/
def listModify {α : Type} (f : α → α) : Nat → List α → List α
  | _, [] => []
  | 0, a :: as => f a :: as
  | n + 1, a :: as => a :: listModify f n as

/-- URL of the repository list for an organization. -/
def repositoriesUrl (organization : String) : String :=
  "https://api.github.com/orgs/" ++ organization ++ "/repos"

/-- URL of the open-pull-request list for one repository. -/
def pullsUrl (organization repoName : String) : String :=
  "https://api.github.com/repos/" ++ organization ++ "/" ++ repoName ++ "/pulls?state=open"

/-- The `PullRequest` record built for one observed pull request: the
stringified `number`, the rewritten `url` (whose raw form is `u`), and the
owning repository's name. -/
def reviewRecord (pull : Json) (u repoName : String) : PullRequest :=
  { id := Json.serialize (pull.getField "number")
    url := rewriteUrl u
    repo_name := repoName }

/-- The `if !contains { push }` statement for reviewers: append a fresh
`Reviewer` when no existing one has the serialized login as its `name`. -/
def pushReviewerIfAbsent (reviewerName : String) (revs : List Reviewer) : List Reviewer :=
  if revs.any (fun r => r.name == reviewerName) then revs
  else revs ++ [{ name := reviewerName, assigned_pull_requests := [] }]

/-- The `push` into `org.reviewers[index].assigned_pull_requests`. -/
def appendRecord (rec : PullRequest) (r : Reviewer) : Reviewer :=
  { r with assigned_pull_requests := r.assigned_pull_requests ++ [rec] }

/-- Body of the inner `for reviewer in reviewers` loop: push a fresh
`Reviewer` when absent, locate that reviewer by `position`, and append the
record there.  `pull["url"].as_str().unwrap()` panics (`none`) when `url`
is not a string; the panic only fires when the `position` lookup
succeeded, since the record is only built inside the `if`. -/
def processReviewer (repoName : String) (pull reviewer : Json) (org : Organization) :
    Option Organization :=
  let reviewerName := Json.serialize (reviewer.getField "login")
  let org1 := { org with reviewers := pushReviewerIfAbsent reviewerName org.reviewers }
  match position (fun r => r.name == reviewerName) org1.reviewers with
  | some index =>
    match (pull.getField "url").asStr with
    | none => none
    | some u =>
      some { org1 with
              reviewers := listModify (appendRecord (reviewRecord pull u repoName))
                index org1.reviewers }
  | none => some org1

/-- The inner loop over one pull request's `requested_reviewers`. -/
def processReviewers (repoName : String) (pull : Json) :
    List Json → Organization → Option Organization
  | [], org => some org
  | rv :: rest, org =>
    match processReviewer repoName pull rv org with
    | none => none
    | some org1 => processReviewers repoName pull rest org1

/-- The `if !contains { push }` statement for repositories. -/
def pushRepoIfAbsent (repoName : String) (repos : List Repository) : List Repository :=
  if repos.any (fun repo => repo.name == repoName) then repos
  else repos ++ [{ name := repoName }]

/-- Body of the `for pull in pulls` loop: register the repository when it
is not yet present, then `as_array(&pull["requested_reviewers"]).unwrap()`
(panic — `none` — when the field is absent or not a list) and the loop
over the reviewers. -/
def processPull (repoName : String) (pull : Json) (org : Organization) : Option Organization :=
  let org1 := { org with repositories := pushRepoIfAbsent repoName org.repositories }
  match (pull.getField "requested_reviewers").asArray with
  | none => none
  | some reviewers => processReviewers repoName pull reviewers org1

/-- The loop over one repository's decoded pull requests. -/
def processPulls (repoName : String) : List Json → Organization → Option Organization
  | [], org => some org
  | p :: rest, org =>
    match processPull repoName p org with
    | none => none
    | some org1 => processPulls repoName rest org1

/-- The `for repository in repositories` loop: fetch each repository's
open pull requests, fail hard when the body does not decode to a list
(`with_context("Failed to parse pull requests")`), and fold the pulls into
the accumulator. -/
def processRepos (world : World) (organization : String) :
    List String → Organization → Except RunError Organization
  | [], org => .ok org
  | repoName :: rest, org =>
    match world (pullsUrl organization repoName) with
    | .sendError =>
      .error (.err ("Failed to fetch pull requests from " ++ pullsUrl organization repoName))
    | .textError => .error (.err "Failed to parse pull requests response")
    | .ok _ body =>
      match decodePullList body with
      | none => .error (.err "Failed to parse pull requests")
      | some pulls =>
        match processPulls repoName pulls org with
        | none => .error .panic
        | some org1 => processRepos world organization rest org1

/-- `fetch_organization_data` of the source: fetch the repository list
(failing its body decode open, to the empty list, via `unwrap_or_else`),
then process every repository in order.  The HTTP status of a completed
response is never consulted. -/
def fetch_organization_data (world : World) (form : Form) : Except RunError Organization :=
  match world (repositoriesUrl form.organization) with
  | .sendError =>
    .error (.err ("Failed to fetch repositories from " ++ repositoriesUrl form.organization))
  | .textError => .error (.err "Failed to parse repositories response")
  | .ok _ body =>
    processRepos world form.organization ((decodeRepoList body).getD [])
      { reviewers := [], repositories := [] }

/-! ## Concrete worlds used by counterexamples and witnesses -/

/-- A form naming the organization `acme`. -/
def exForm : Form := { organization := "acme", token := "token" }

/-- Repository-list body listing the single repository `widgets`. -/
def exRepoListBody : Json := .arr [.obj [("name", .str "widgets")]]

/-- An open pull request with an empty `requested_reviewers` list. -/
def exPullNoReviewers : Json :=
  .obj [("number", .num 1),
        ("url", .str "https://api.github.com/repos/acme/widgets/pulls/1"),
        ("requested_reviewers", .arr [])]

/-- World: `acme` has one repository `widgets`, whose one open pull
request has zero requested reviewers. -/
def worldNoReviewers : World := fun u =>
  if u == "https://api.github.com/orgs/acme/repos" then .ok 200 (some exRepoListBody)
  else if u == "https://api.github.com/repos/acme/widgets/pulls?state=open" then
    .ok 200 (some (.arr [exPullNoReviewers]))
  else .sendError

/-- World: the repository-list request completes with HTTP status 401 and
the usual error-object body. -/
def worldStatus401 : World := fun u =>
  if u == "https://api.github.com/orgs/acme/repos" then
    .ok 401 (some (.obj [("message", .str "Bad credentials")]))
  else .sendError

/-- An open pull request with no `requested_reviewers` field at all. -/
def exPullMissingReviewers : Json :=
  .obj [("number", .num 1),
        ("url", .str "https://api.github.com/repos/acme/widgets/pulls/1")]

/-- World: `widgets` has one open pull request whose JSON lacks the
`requested_reviewers` field. -/
def worldMissingReviewers : World := fun u =>
  if u == "https://api.github.com/orgs/acme/repos" then .ok 200 (some exRepoListBody)
  else if u == "https://api.github.com/repos/acme/widgets/pulls?state=open" then
    .ok 200 (some (.arr [exPullMissingReviewers]))
  else .sendError

/-- An open pull request requesting the single reviewer `alice`. -/
def exPullAlice : Json :=
  .obj [("number", .num 1),
        ("url", .str "https://api.github.com/repos/acme/widgets/pulls/1"),
        ("requested_reviewers", .arr [.obj [("login", .str "alice")]])]

/-- World: `widgets` has one open pull request requesting reviewer
`alice`. -/
def worldAlice : World := fun u =>
  if u == "https://api.github.com/orgs/acme/repos" then .ok 200 (some exRepoListBody)
  else if u == "https://api.github.com/repos/acme/widgets/pulls?state=open" then
    .ok 200 (some (.arr [exPullAlice]))
  else .sendError

/-- A reviewer entry with no `login` field. -/
def exReviewerNoLogin : Json := .obj []

/-- An open pull request in `w1` whose requested-reviewer entry lacks a
`login` field. -/
def exPullNullLogin1 : Json :=
  .obj [("number", .num 1),
        ("url", .str "https://api.github.com/repos/acme/w1/pulls/1"),
        ("requested_reviewers", .arr [exReviewerNoLogin])]

/-- An open pull request in `w2` whose requested-reviewer entry lacks a
`login` field. -/
def exPullNullLogin2 : Json :=
  .obj [("number", .num 7),
        ("url", .str "https://api.github.com/repos/acme/w2/pulls/7"),
        ("requested_reviewers", .arr [exReviewerNoLogin])]

/-- World: two repositories `w1` and `w2`, each with one open pull request
whose single requested-reviewer entry lacks a `login` field. -/
def worldNullLogins : World := fun u =>
  if u == "https://api.github.com/orgs/acme/repos" then
    .ok 200 (some (.arr [.obj [("name", .str "w1")], .obj [("name", .str "w2")]]))
  else if u == "https://api.github.com/repos/acme/w1/pulls?state=open" then
    .ok 200 (some (.arr [exPullNullLogin1]))
  else if u == "https://api.github.com/repos/acme/w2/pulls?state=open" then
    .ok 200 (some (.arr [exPullNullLogin2]))
  else .sendError

/-- World: the repository list decodes to `[widgets]` but the pull-request
body for `widgets` is not well-formed JSON. -/
def worldBadPulls : World := fun u =>
  if u == "https://api.github.com/orgs/acme/repos" then .ok 200 (some exRepoListBody)
  else if u == "https://api.github.com/repos/acme/widgets/pulls?state=open" then .ok 200 none
  else .sendError

/-- An open pull request requesting the two reviewers `alice` and `bob`. -/
def exPullTwoReviewers : Json :=
  .obj [("number", .num 7),
        ("url", .str "https://api.github.com/repos/acme/gadgets/pulls/7"),
        ("requested_reviewers", .arr [.obj [("login", .str "alice")],
                                      .obj [("login", .str "bob")]])]

/-- The result of a run against `worldNoReviewers`. -/
def exOrgOnlyWidgets : Organization :=
  { reviewers := [], repositories := [{ name := "widgets" }] }

/-- The result of a run against `worldAlice`. -/
def exOrgAlice : Organization :=
  { reviewers := [{ name := "\"alice\"",
                    assigned_pull_requests :=
                      [{ id := "1", url := "https://github.com/acme/widgets/pull/1",
                         repo_name := "widgets" }] }],
    repositories := [{ name := "widgets" }] }

/-- The result of a run against `worldNullLogins`: one reviewer named
`null` holding both pull requests. -/
def exOrgNullLogins : Organization :=
  { reviewers := [{ name := "null",
                    assigned_pull_requests :=
                      [{ id := "1", url := "https://github.com/acme/w1/pull/1",
                         repo_name := "w1" },
                       { id := "7", url := "https://github.com/acme/w2/pull/7",
                         repo_name := "w2" }] }],
    repositories := [{ name := "w1" }, { name := "w2" }] }

/-! ## The upsert view of one reviewer-loop iteration

`processReviewer` — push-if-absent, then `position`, then an indexed
append — acts on the reviewer list as a single first-match upsert.  The
following function states that view and the lemmas establish it. -/

/-- Append `rec` to the first reviewer named `s`, creating that reviewer
at the end of the list when no reviewer carries the name. -/
def upsertRecord (s : String) (rec : PullRequest) : List Reviewer → List Reviewer
  | [] => [{ name := s, assigned_pull_requests := [rec] }]
  | r :: rs =>
    if r.name == s then appendRecord rec r :: rs
    else r :: upsertRecord s rec rs

/-- The assignment list of the first reviewer carrying a name (empty when
no reviewer does). -/
def assignedOf (t : String) (revs : List Reviewer) : List PullRequest :=
  match revs.find? (fun r => r.name == t) with
  | some r => r.assigned_pull_requests
  | none => []

/-- Total number of `PullRequest` records across all reviewers. -/
def totalRecords (revs : List Reviewer) : Nat :=
  (revs.map (fun r => r.assigned_pull_requests.length)).sum

/-- Both name sequences are duplicate-free. -/
def DedupInv (org : Organization) : Prop :=
  (org.reviewers.map Reviewer.name).Nodup ∧ (org.repositories.map Repository.name).Nodup

/-- Every stored record's `repo_name` names a registered repository. -/
def RepoClosed (org : Organization) : Prop :=
  ∀ r ∈ org.reviewers, ∀ pr ∈ r.assigned_pull_requests,
    ∃ repo ∈ org.repositories, repo.name = pr.repo_name

/-- Replace the status code of every completed response, leaving bodies
and transport failures untouched. -/
def setStatuses (f : String → Nat) (world : World) : World := fun u =>
  match world u with
  | .ok _ body => .ok (f u) body
  | out => out


/-- Folding one upsert per requested-reviewer entry over the reviewer
list: what the `for reviewer in reviewers` loop amounts to when the pull
request's `url` is the string `u`. -/
def foldUpsert (pull : Json) (u repoName : String) : List Json → List Reviewer → List Reviewer
  | [], revs => revs
  | rv :: rest, revs =>
    foldUpsert pull u repoName rest
      (upsertRecord (Json.serialize (rv.getField "login")) (reviewRecord pull u repoName) revs)


lemma pushReviewerIfAbsent_cons_ne (s : String) (r : Reviewer) (rs : List Reviewer)
    (h : (r.name == s) = false) :
    pushReviewerIfAbsent s (r :: rs) = r :: pushReviewerIfAbsent s rs := by
  unfold pushReviewerIfAbsent
  simp only [List.any_cons, h, Bool.false_or]
  cases hany : rs.any (fun x => x.name == s) <;> simp

lemma upsert_core (s : String) (rec : PullRequest) :
    ∀ revs : List Reviewer,
      ∃ i, position (fun r => r.name == s) (pushReviewerIfAbsent s revs) = some i ∧
        listModify (appendRecord rec) i (pushReviewerIfAbsent s revs) = upsertRecord s rec revs := by
  intro revs
  induction revs with
  | nil =>
    refine ⟨0, ?_, ?_⟩ <;>
      simp [pushReviewerIfAbsent, position, listModify, upsertRecord, appendRecord]
  | cons r rs ih =>
    cases hname : r.name == s with
    | true =>
      refine ⟨0, ?_, ?_⟩
      · have : pushReviewerIfAbsent s (r :: rs) = r :: rs := by
          unfold pushReviewerIfAbsent
          simp [List.any_cons, hname]
        rw [this]
        simp [position, hname]
      · have : pushReviewerIfAbsent s (r :: rs) = r :: rs := by
          unfold pushReviewerIfAbsent
          simp [List.any_cons, hname]
        rw [this]
        simp [listModify, upsertRecord, hname]
    | false =>
      obtain ⟨i, hpos, hmod⟩ := ih
      refine ⟨i + 1, ?_, ?_⟩
      · rw [pushReviewerIfAbsent_cons_ne s r rs hname]
        simp [position, hname, hpos]
      · rw [pushReviewerIfAbsent_cons_ne s r rs hname]
        simp only [listModify, hmod]
        simp [upsertRecord, hname]

/-- With a string `url`, one reviewer iteration is exactly an upsert. -/
lemma processReviewer_eq (repoName : String) (pull rv : Json) (org : Organization) (u : String)
    (hu : (pull.getField "url").asStr = some u) :
    processReviewer repoName pull rv org =
      some { org with reviewers := upsertRecord (Json.serialize (rv.getField "login"))
                        (reviewRecord pull u repoName) org.reviewers } := by
  obtain ⟨i, hpos, hmod⟩ :=
    upsert_core (Json.serialize (rv.getField "login")) (reviewRecord pull u repoName) org.reviewers
  unfold processReviewer
  simp only [hpos, hu, hmod]

/-- Without a string `url`, one reviewer iteration panics. -/
lemma processReviewer_none (repoName : String) (pull rv : Json) (org : Organization)
    (hu : (pull.getField "url").asStr = none) :
    processReviewer repoName pull rv org = none := by
  obtain ⟨i, hpos, _⟩ :=
    upsert_core (Json.serialize (rv.getField "login"))
      (reviewRecord pull "" repoName) org.reviewers
  unfold processReviewer
  simp only [hpos, hu]

/-! ## Properties of a single upsert -/


lemma assignedOf_upsert_self (s : String) (rec : PullRequest) :
    ∀ revs : List Reviewer,
      assignedOf s (upsertRecord s rec revs) = assignedOf s revs ++ [rec] := by
  intro revs
  induction revs with
  | nil => simp [upsertRecord, assignedOf, appendRecord, List.find?]
  | cons r rs ih =>
    cases hname : r.name == s with
    | true =>
      simp [upsertRecord, hname, assignedOf, List.find?, appendRecord]
    | false =>
      simp only [upsertRecord, hname, Bool.false_eq_true, if_false]
      simp only [assignedOf, List.find?, hname] at ih ⊢
      exact ih

lemma assignedOf_upsert_other (s t : String) (rec : PullRequest) (hst : s ≠ t) :
    ∀ revs : List Reviewer,
      assignedOf t (upsertRecord s rec revs) = assignedOf t revs := by
  intro revs
  induction revs with
  | nil =>
    have : (s == t) = false := by simpa using hst
    simp [upsertRecord, assignedOf, List.find?, this]
  | cons r rs ih =>
    cases hname : r.name == s with
    | true =>
      have hrs : r.name = s := by simpa using hname
      have hrt : (r.name == t) = false := by
        simp only [hrs]
        simpa using hst
      simp [upsertRecord, hname, assignedOf, List.find?, hrt, appendRecord]
    | false =>
      simp only [upsertRecord, hname, Bool.false_eq_true, if_false]
      cases hrt : r.name == t with
      | true => simp [assignedOf, List.find?, hrt]
      | false =>
        simp only [assignedOf, List.find?, hrt] at ih ⊢
        exact ih

lemma names_upsert (s : String) (rec : PullRequest) :
    ∀ revs : List Reviewer,
      (upsertRecord s rec revs).map Reviewer.name =
        if revs.any (fun r => r.name == s) then revs.map Reviewer.name
        else revs.map Reviewer.name ++ [s] := by
  intro revs
  induction revs with
  | nil => simp [upsertRecord]
  | cons r rs ih =>
    cases hname : r.name == s with
    | true => simp [upsertRecord, hname, appendRecord, List.any_cons]
    | false =>
      simp only [upsertRecord, hname, Bool.false_eq_true, if_false, List.map_cons,
        List.any_cons, Bool.false_or, ih]
      cases hany : rs.any (fun x => x.name == s) <;> simp

lemma nodup_names_upsert (s : String) (rec : PullRequest) (revs : List Reviewer)
    (h : (revs.map Reviewer.name).Nodup) :
    ((upsertRecord s rec revs).map Reviewer.name).Nodup := by
  rw [names_upsert]
  cases hany : revs.any (fun r => r.name == s) with
  | true => simpa using h
  | false =>
    simp only [Bool.false_eq_true, if_false]
    have hnotmem : s ∉ revs.map Reviewer.name := by
      intro hmem
      obtain ⟨r, hr, hrname⟩ := List.mem_map.mp hmem
      have : revs.any (fun x => x.name == s) = true :=
        List.any_eq_true.mpr ⟨r, hr, by simp [hrname]⟩
      simp [this] at hany
    simp [List.nodup_append, h, hnotmem]


lemma totalRecords_upsert (s : String) (rec : PullRequest) :
    ∀ revs : List Reviewer,
      totalRecords (upsertRecord s rec revs) = totalRecords revs + 1 := by
  intro revs
  induction revs with
  | nil => simp [upsertRecord, totalRecords]
  | cons r rs ih =>
    cases hname : r.name == s with
    | true =>
      simp [upsertRecord, hname, totalRecords, appendRecord]
      omega
    | false =>
      simp only [upsertRecord, hname, Bool.false_eq_true, if_false]
      simp only [totalRecords, List.map_cons, List.sum_cons] at ih ⊢
      omega

lemma mem_records_upsert (s : String) (rec : PullRequest) :
    ∀ revs : List Reviewer, ∀ r' ∈ upsertRecord s rec revs, ∀ pr ∈ r'.assigned_pull_requests,
      (∃ r ∈ revs, pr ∈ r.assigned_pull_requests) ∨ pr = rec := by
  intro revs
  induction revs with
  | nil =>
    intro r' hr' pr hpr
    simp only [upsertRecord, List.mem_singleton] at hr'
    subst hr'
    simp only [List.mem_singleton] at hpr
    exact Or.inr hpr
  | cons r rs ih =>
    intro r' hr' pr hpr
    cases hname : r.name == s with
    | true =>
      simp only [upsertRecord, hname, if_true, List.mem_cons] at hr'
      rcases hr' with hr' | hr'
      · subst hr'
        simp only [appendRecord, List.mem_append, List.mem_singleton] at hpr
        rcases hpr with hpr | hpr
        · exact Or.inl ⟨r, List.mem_cons_self r rs, hpr⟩
        · exact Or.inr hpr
      · exact Or.inl ⟨r', List.mem_cons_of_mem r hr', hpr⟩
    | false =>
      simp only [upsertRecord, hname, Bool.false_eq_true, if_false, List.mem_cons] at hr'
      rcases hr' with hr' | hr'
      · subst hr'
        exact Or.inl ⟨r', List.mem_cons_self r' rs, hpr⟩
      · rcases ih r' hr' pr hpr with ⟨r0, hr0, hpr0⟩ | hrec
        · exact Or.inl ⟨r0, List.mem_cons_of_mem r hr0, hpr0⟩
        · exact Or.inr hrec

/-! ## The fold view of the whole reviewers loop -/


lemma processReviewers_eq (repoName : String) (pull : Json) (u : String)
    (hu : (pull.getField "url").asStr = some u) :
    ∀ (rs : List Json) (org : Organization),
      processReviewers repoName pull rs org =
        some { org with reviewers := foldUpsert pull u repoName rs org.reviewers } := by
  intro rs
  induction rs with
  | nil => intro org; simp [processReviewers, foldUpsert]
  | cons rv rest ih =>
    intro org
    simp only [processReviewers, processReviewer_eq repoName pull rv org u hu]
    exact ih _

/-- Any `some` outcome of the reviewers loop is reached either vacuously
(no reviewers) or through the fold of upserts with a string `url`. -/
lemma processReviewers_some_cases (repoName : String) (pull : Json) (rs : List Json)
    (org org' : Organization) (h : processReviewers repoName pull rs org = some org') :
    org' = org ∨
      ∃ u, (pull.getField "url").asStr = some u ∧
        org' = { org with reviewers := foldUpsert pull u repoName rs org.reviewers } := by
  cases rs with
  | nil =>
    left
    simpa [processReviewers] using h.symm
  | cons rv rest =>
    cases hu : (pull.getField "url").asStr with
    | none =>
      exfalso
      simp [processReviewers, processReviewer_none repoName pull rv org hu] at h
    | some u =>
      right
      refine ⟨u, rfl, ?_⟩
      rw [processReviewers_eq repoName pull u hu (rv :: rest) org] at h
      exact (Option.some_injective _ h).symm

lemma nodup_names_foldUpsert (pull : Json) (u repoName : String) :
    ∀ (rs : List Json) (revs : List Reviewer),
      (revs.map Reviewer.name).Nodup → ((foldUpsert pull u repoName rs revs).map Reviewer.name).Nodup := by
  intro rs
  induction rs with
  | nil => intro revs h; simpa [foldUpsert] using h
  | cons rv rest ih =>
    intro revs h
    exact ih _ (nodup_names_upsert _ _ _ h)

lemma totalRecords_foldUpsert (pull : Json) (u repoName : String) :
    ∀ (rs : List Json) (revs : List Reviewer),
      totalRecords (foldUpsert pull u repoName rs revs) = totalRecords revs + rs.length := by
  intro rs
  induction rs with
  | nil => intro revs; simp [foldUpsert]
  | cons rv rest ih =>
    intro revs
    simp only [foldUpsert, ih, totalRecords_upsert, List.length_cons]
    omega

lemma mem_records_foldUpsert (pull : Json) (u repoName : String) :
    ∀ (rs : List Json) (revs : List Reviewer),
      ∀ r' ∈ foldUpsert pull u repoName rs revs, ∀ pr ∈ r'.assigned_pull_requests,
        (∃ r ∈ revs, pr ∈ r.assigned_pull_requests) ∨ pr = reviewRecord pull u repoName := by
  intro rs
  induction rs with
  | nil =>
    intro revs r' hr' pr hpr
    exact Or.inl ⟨r', by simpa [foldUpsert] using hr', hpr⟩
  | cons rv rest ih =>
    intro revs r' hr' pr hpr
    simp only [foldUpsert] at hr'
    rcases ih _ r' hr' pr hpr with ⟨r0, hr0, hpr0⟩ | hrec
    · rcases mem_records_upsert _ _ revs r0 hr0 pr hpr0 with h0 | h0
      · exact Or.inl h0
      · exact Or.inr h0
    · exact Or.inr hrec

lemma assignedOf_foldUpsert_notmem (pull : Json) (u repoName : String) :
    ∀ (rs : List Json) (revs : List Reviewer) (t : String),
      t ∉ rs.map (fun rv => Json.serialize (Json.getField rv "login")) →
      assignedOf t (foldUpsert pull u repoName rs revs) = assignedOf t revs := by
  intro rs
  induction rs with
  | nil => intro revs t _; simp [foldUpsert]
  | cons rv rest ih =>
    intro revs t ht
    simp only [List.map_cons, List.mem_cons, not_or] at ht
    simp only [foldUpsert]
    rw [ih _ t ht.2, assignedOf_upsert_other _ _ _ (fun hst => ht.1 hst.symm)]

/-- Fan-out: with pairwise-distinct serialized logins, the fold appends
exactly the record to each named reviewer's assignment list. -/
lemma assignedOf_foldUpsert_fanout (pull : Json) (u repoName : String) :
    ∀ (rs : List Json) (revs : List Reviewer),
      (rs.map (fun rv => Json.serialize (Json.getField rv "login"))).Nodup →
      ∀ rv ∈ rs,
        assignedOf (Json.serialize (Json.getField rv "login")) (foldUpsert pull u repoName rs revs) =
          assignedOf (Json.serialize (Json.getField rv "login")) revs ++ [reviewRecord pull u repoName] := by
  intro rs
  induction rs with
  | nil => intro revs _ rv hrv; cases hrv
  | cons rv0 rest ih =>
    intro revs hnd rv hrv
    simp only [List.map_cons, List.nodup_cons] at hnd
    rcases List.mem_cons.mp hrv with hrv | hrv
    · subst hrv
      simp only [foldUpsert]
      rw [assignedOf_foldUpsert_notmem pull u repoName rest _ _ hnd.1,
        assignedOf_upsert_self]
    · have hne : Json.serialize (Json.getField rv0 "login") ≠
          Json.serialize (Json.getField rv "login") := by
        intro heq
        exact hnd.1 (heq ▸ List.mem_map.mpr ⟨rv, hrv, rfl⟩)
      simp only [foldUpsert]
      rw [ih _ hnd.2 rv hrv, assignedOf_upsert_other _ _ _ hne]

/-! ## Repository registration -/

lemma mem_pushRepoIfAbsent_self (n : String) (repos : List Repository) :
    ∃ repo ∈ pushRepoIfAbsent n repos, repo.name = n := by
  unfold pushRepoIfAbsent
  cases hany : repos.any (fun repo => repo.name == n) with
  | true =>
    obtain ⟨repo, hmem, hname⟩ := List.any_eq_true.mp hany
    exact ⟨repo, by simpa using hmem, by simpa using hname⟩
  | false =>
    exact ⟨{ name := n }, by simp, rfl⟩

lemma mem_pushRepoIfAbsent_mono (n : String) (repos : List Repository) (repo : Repository)
    (h : repo ∈ repos) : repo ∈ pushRepoIfAbsent n repos := by
  unfold pushRepoIfAbsent
  cases repos.any (fun r => r.name == n) <;> simp [h]

lemma mem_pushRepoIfAbsent_cases (n : String) (repos : List Repository) (repo : Repository)
    (h : repo ∈ pushRepoIfAbsent n repos) : repo ∈ repos ∨ repo = { name := n } := by
  unfold pushRepoIfAbsent at h
  cases hany : repos.any (fun r => r.name == n) with
  | true => rw [hany] at h; exact Or.inl (by simpa using h)
  | false =>
    rw [hany] at h
    simp only [Bool.false_eq_true, if_false, List.mem_append, List.mem_singleton] at h
    exact h

lemma nodup_names_pushRepo (n : String) (repos : List Repository)
    (h : (repos.map Repository.name).Nodup) :
    ((pushRepoIfAbsent n repos).map Repository.name).Nodup := by
  unfold pushRepoIfAbsent
  cases hany : repos.any (fun repo => repo.name == n) with
  | true => simpa using h
  | false =>
    have hnotmem : n ∉ repos.map Repository.name := by
      intro hmem
      obtain ⟨repo, hr, hrname⟩ := List.mem_map.mp hmem
      have : repos.any (fun x => x.name == n) = true :=
        List.any_eq_true.mpr ⟨repo, hr, by simp [hrname]⟩
      simp [this] at hany
    simp [List.nodup_append, h, hnotmem]

/-- Any `some` outcome of one pull's processing: the repository is
registered, and the reviewer list is either untouched (zero reviewers) or
the upsert fold over a decoded reviewer array with a string `url`. -/
lemma processPull_some_cases (repoName : String) (pull : Json) (org org' : Organization)
    (h : processPull repoName pull org = some org') :
    org'.repositories = pushRepoIfAbsent repoName org.repositories ∧
      ∃ rs, (pull.getField "requested_reviewers").asArray = some rs ∧
        (org'.reviewers = org.reviewers ∨
          ∃ u, (pull.getField "url").asStr = some u ∧
            org'.reviewers = foldUpsert pull u repoName rs org.reviewers) := by
  unfold processPull at h
  cases hra : (pull.getField "requested_reviewers").asArray with
  | none => rw [hra] at h; cases h
  | some rs =>
    rw [hra] at h
    rcases processReviewers_some_cases repoName pull rs _ org' h with heq | ⟨u, hu, heq⟩
    · subst heq
      exact ⟨rfl, rs, rfl, Or.inl rfl⟩
    · subst heq
      exact ⟨rfl, rs, rfl, Or.inr ⟨u, hu, rfl⟩⟩

/-! ## Run-level invariants -/


lemma dedup_processPull (repoName : String) (pull : Json) (org org' : Organization)
    (h : processPull repoName pull org = some org') (hinv : DedupInv org) : DedupInv org' := by
  obtain ⟨hrepos, rs, _, hrevs⟩ := processPull_some_cases repoName pull org org' h
  constructor
  · rcases hrevs with heq | ⟨u, _, heq⟩
    · rw [heq]; exact hinv.1
    · rw [heq]; exact nodup_names_foldUpsert pull u repoName rs org.reviewers hinv.1
  · rw [hrepos]; exact nodup_names_pushRepo repoName org.repositories hinv.2

lemma repoClosed_processPull (repoName : String) (pull : Json) (org org' : Organization)
    (h : processPull repoName pull org = some org') (hinv : RepoClosed org) : RepoClosed org' := by
  obtain ⟨hrepos, rs, _, hrevs⟩ := processPull_some_cases repoName pull org org' h
  intro r hr pr hpr
  rw [hrepos]
  rcases hrevs with heq | ⟨u, _, heq⟩
  · rw [heq] at hr
    obtain ⟨repo, hrepo, hname⟩ := hinv r hr pr hpr
    exact ⟨repo, mem_pushRepoIfAbsent_mono _ _ _ hrepo, hname⟩
  · rw [heq] at hr
    rcases mem_records_foldUpsert pull u repoName rs org.reviewers r hr pr hpr with
      ⟨r0, hr0, hpr0⟩ | hrec
    · obtain ⟨repo, hrepo, hname⟩ := hinv r0 hr0 pr hpr0
      exact ⟨repo, mem_pushRepoIfAbsent_mono _ _ _ hrepo, hname⟩
    · obtain ⟨repo, hrepo, hname⟩ := mem_pushRepoIfAbsent_self repoName org.repositories
      exact ⟨repo, hrepo, by rw [hname, hrec]; rfl⟩

lemma repos_mono_processPull (repoName : String) (pull : Json) (org org' : Organization)
    (h : processPull repoName pull org = some org') (repo : Repository)
    (hmem : repo ∈ org.repositories) : repo ∈ org'.repositories := by
  obtain ⟨hrepos, _, _, _⟩ := processPull_some_cases repoName pull org org' h
  rw [hrepos]
  exact mem_pushRepoIfAbsent_mono _ _ _ hmem

lemma repos_cases_processPull (repoName : String) (pull : Json) (org org' : Organization)
    (h : processPull repoName pull org = some org') (repo : Repository)
    (hmem : repo ∈ org'.repositories) : repo ∈ org.repositories ∨ repo = { name := repoName } := by
  obtain ⟨hrepos, _, _, _⟩ := processPull_some_cases repoName pull org org' h
  rw [hrepos] at hmem
  exact mem_pushRepoIfAbsent_cases _ _ _ hmem

/-! ## Lifting the invariants over one repository's pull loop -/

lemma dedup_processPulls (repoName : String) (pulls : List Json) :
    ∀ org org', processPulls repoName pulls org = some org' → DedupInv org → DedupInv org' := by
  induction pulls with
  | nil =>
    intro org org' h hinv
    simp only [processPulls, Option.some_inj] at h
    rwa [← h]
  | cons p rest ih =>
    intro org org' h hinv
    simp only [processPulls] at h
    cases hp : processPull repoName p org with
    | none => rw [hp] at h; cases h
    | some org1 =>
      rw [hp] at h
      exact ih org1 org' h (dedup_processPull repoName p org org1 hp hinv)

lemma repoClosed_processPulls (repoName : String) (pulls : List Json) :
    ∀ org org', processPulls repoName pulls org = some org' → RepoClosed org → RepoClosed org' := by
  induction pulls with
  | nil =>
    intro org org' h hinv
    simp only [processPulls, Option.some_inj] at h
    rwa [← h]
  | cons p rest ih =>
    intro org org' h hinv
    simp only [processPulls] at h
    cases hp : processPull repoName p org with
    | none => rw [hp] at h; cases h
    | some org1 =>
      rw [hp] at h
      exact ih org1 org' h (repoClosed_processPull repoName p org org1 hp hinv)

lemma repos_mono_processPulls (repoName : String) (pulls : List Json) :
    ∀ org org' repo, processPulls repoName pulls org = some org' →
      repo ∈ org.repositories → repo ∈ org'.repositories := by
  induction pulls with
  | nil =>
    intro org org' repo h hmem
    simp only [processPulls, Option.some_inj] at h
    rwa [← h]
  | cons p rest ih =>
    intro org org' repo h hmem
    simp only [processPulls] at h
    cases hp : processPull repoName p org with
    | none => rw [hp] at h; cases h
    | some org1 =>
      rw [hp] at h
      exact ih org1 org' repo h (repos_mono_processPull repoName p org org1 hp repo hmem)

lemma repos_cases_processPulls (repoName : String) (pulls : List Json) :
    ∀ org org' repo, processPulls repoName pulls org = some org' →
      repo ∈ org'.repositories →
      repo ∈ org.repositories ∨ (repo = { name := repoName } ∧ pulls ≠ []) := by
  induction pulls with
  | nil =>
    intro org org' repo h hmem
    simp only [processPulls, Option.some_inj] at h
    exact Or.inl (h ▸ hmem)
  | cons p rest ih =>
    intro org org' repo h hmem
    simp only [processPulls] at h
    cases hp : processPull repoName p org with
    | none => rw [hp] at h; cases h
    | some org1 =>
      rw [hp] at h
      rcases ih org1 org' repo h hmem with h1 | ⟨heq, _⟩
      · rcases repos_cases_processPull repoName p org org1 hp repo h1 with h2 | h2
        · exact Or.inl h2
        · exact Or.inr ⟨h2, by simp⟩
      · exact Or.inr ⟨heq, by simp⟩

lemma registers_processPulls (repoName : String) (pulls : List Json) (hne : pulls ≠ [])
    (org org' : Organization) (h : processPulls repoName pulls org = some org') :
    ∃ repo ∈ org'.repositories, repo.name = repoName := by
  cases pulls with
  | nil => exact absurd rfl hne
  | cons p rest =>
    simp only [processPulls] at h
    cases hp : processPull repoName p org with
    | none => rw [hp] at h; cases h
    | some org1 =>
      rw [hp] at h
      obtain ⟨hrepos, _, _, _⟩ := processPull_some_cases repoName p org org1 hp
      obtain ⟨repo, hmem, hname⟩ := mem_pushRepoIfAbsent_self repoName org.repositories
      exact ⟨repo, repos_mono_processPulls repoName rest org1 org' repo h (hrepos ▸ hmem), hname⟩

/-! ## Lifting the invariants over the repository loop -/

lemma dedup_processRepos (world : World) (organization : String) (names : List String) :
    ∀ org org', processRepos world organization names org = .ok org' →
      DedupInv org → DedupInv org' := by
  induction names with
  | nil =>
    intro org org' h hinv
    simp only [processRepos, Except.ok.injEq] at h
    rwa [← h]
  | cons n rest ih =>
    intro org org' h hinv
    simp only [processRepos] at h
    cases hw : world (pullsUrl organization n) with
    | sendError => rw [hw] at h; cases h
    | textError => rw [hw] at h; cases h
    | ok st body =>
      rw [hw] at h
      simp only at h
      cases hd : decodePullList body with
      | none => rw [hd] at h; simp at h
      | some pulls =>
        rw [hd] at h
        simp only at h
        cases hp : processPulls n pulls org with
        | none => rw [hp] at h; cases h
        | some org1 =>
          rw [hp] at h
          exact ih org1 org' h (dedup_processPulls n pulls org org1 hp hinv)

lemma repoClosed_processRepos (world : World) (organization : String) (names : List String) :
    ∀ org org', processRepos world organization names org = .ok org' →
      RepoClosed org → RepoClosed org' := by
  induction names with
  | nil =>
    intro org org' h hinv
    simp only [processRepos, Except.ok.injEq] at h
    rwa [← h]
  | cons n rest ih =>
    intro org org' h hinv
    simp only [processRepos] at h
    cases hw : world (pullsUrl organization n) with
    | sendError => rw [hw] at h; cases h
    | textError => rw [hw] at h; cases h
    | ok st body =>
      rw [hw] at h
      simp only at h
      cases hd : decodePullList body with
      | none => rw [hd] at h; simp at h
      | some pulls =>
        rw [hd] at h
        simp only at h
        cases hp : processPulls n pulls org with
        | none => rw [hp] at h; cases h
        | some org1 =>
          rw [hp] at h
          exact ih org1 org' h (repoClosed_processPulls n pulls org org1 hp hinv)

lemma repos_mono_processRepos (world : World) (organization : String) (names : List String) :
    ∀ org org' repo, processRepos world organization names org = .ok org' →
      repo ∈ org.repositories → repo ∈ org'.repositories := by
  induction names with
  | nil =>
    intro org org' repo h hmem
    simp only [processRepos, Except.ok.injEq] at h
    rwa [← h]
  | cons n rest ih =>
    intro org org' repo h hmem
    simp only [processRepos] at h
    cases hw : world (pullsUrl organization n) with
    | sendError => rw [hw] at h; cases h
    | textError => rw [hw] at h; cases h
    | ok st body =>
      rw [hw] at h
      simp only at h
      cases hd : decodePullList body with
      | none => rw [hd] at h; simp at h
      | some pulls =>
        rw [hd] at h
        simp only at h
        cases hp : processPulls n pulls org with
        | none => rw [hp] at h; cases h
        | some org1 =>
          rw [hp] at h
          exact ih org1 org' repo h (repos_mono_processPulls n pulls org org1 repo hp hmem)

lemma repos_source_processRepos (world : World) (organization : String) (names : List String) :
    ∀ org org' repo, processRepos world organization names org = .ok org' →
      repo ∈ org'.repositories →
      repo ∈ org.repositories ∨
        ∃ st body pulls, world (pullsUrl organization repo.name) = .ok st body ∧
          decodePullList body = some pulls ∧ pulls ≠ [] := by
  induction names with
  | nil =>
    intro org org' repo h hmem
    simp only [processRepos, Except.ok.injEq] at h
    exact Or.inl (h ▸ hmem)
  | cons n rest ih =>
    intro org org' repo h hmem
    simp only [processRepos] at h
    cases hw : world (pullsUrl organization n) with
    | sendError => rw [hw] at h; cases h
    | textError => rw [hw] at h; cases h
    | ok st body =>
      rw [hw] at h
      simp only at h
      cases hd : decodePullList body with
      | none => rw [hd] at h; simp at h
      | some pulls =>
        rw [hd] at h
        simp only at h
        cases hp : processPulls n pulls org with
        | none => rw [hp] at h; cases h
        | some org1 =>
          rw [hp] at h
          rcases ih org1 org' repo h hmem with h1 | h1
          · rcases repos_cases_processPulls n pulls org org1 repo hp h1 with h2 | ⟨heq, hne⟩
            · exact Or.inl h2
            · subst heq
              exact Or.inr ⟨st, body, pulls, hw, hd, hne⟩
          · exact Or.inr h1

lemma registers_processRepos (world : World) (organization : String) (names : List String) :
    ∀ org org' n st body pulls, processRepos world organization names org = .ok org' →
      n ∈ names → world (pullsUrl organization n) = .ok st body →
      decodePullList body = some pulls → pulls ≠ [] →
      ∃ repo ∈ org'.repositories, repo.name = n := by
  induction names with
  | nil => intro org org' n st body pulls _ hn; cases hn
  | cons m rest ih =>
    intro org org' n st body pulls h hn hw hd hne
    simp only [processRepos] at h
    rcases List.mem_cons.mp hn with heq | hn'
    · subst heq
      rw [hw] at h
      simp only at h
      rw [hd] at h
      simp only at h
      cases hp : processPulls n pulls org with
      | none => rw [hp] at h; cases h
      | some org1 =>
        rw [hp] at h
        obtain ⟨repo, hmem, hname⟩ := registers_processPulls n pulls hne org org1 hp
        exact ⟨repo, repos_mono_processRepos world organization rest org1 org' repo h hmem, hname⟩
    · cases hw' : world (pullsUrl organization m) with
      | sendError => rw [hw'] at h; cases h
      | textError => rw [hw'] at h; cases h
      | ok st' body' =>
        rw [hw'] at h
        simp only at h
        cases hd' : decodePullList body' with
        | none => rw [hd'] at h; simp at h
        | some pulls' =>
          rw [hd'] at h
          simp only at h
          cases hp : processPulls m pulls' org with
          | none => rw [hp] at h; cases h
          | some org1 =>
            rw [hp] at h
            exact ih org1 org' n st body pulls h hn' hw hd hne

/-! ## The fetch entry point -/

/-- A successful run starts from a completed repository-list response and
processes the (fail-open) decoded repository names from the empty
accumulator. -/
lemma fetch_ok_cases (world : World) (form : Form) (org : Organization)
    (h : fetch_organization_data world form = .ok org) :
    ∃ st body, world (repositoriesUrl form.organization) = .ok st body ∧
      processRepos world form.organization ((decodeRepoList body).getD [])
        { reviewers := [], repositories := [] } = .ok org := by
  unfold fetch_organization_data at h
  split at h
  · cases h
  · cases h
  · next st body hw => exact ⟨st, body, hw, h⟩

/-! ## Status-blindness -/


lemma processRepos_setStatuses (f : String → Nat) (world : World) (organization : String) :
    ∀ (names : List String) (org : Organization),
      processRepos (setStatuses f world) organization names org =
        processRepos world organization names org := by
  intro names
  induction names with
  | nil => intro org; rfl
  | cons n rest ih =>
    intro org
    simp only [processRepos]
    cases hw : world (pullsUrl organization n) with
    | sendError => simp [setStatuses, hw]
    | textError => simp [setStatuses, hw]
    | ok st body =>
      have hs : setStatuses f world (pullsUrl organization n) =
          .ok (f (pullsUrl organization n)) body := by
        simp [setStatuses, hw]
      rw [hs]
      simp only
      cases decodePullList body with
      | none => rfl
      | some pulls =>
        simp only
        cases processPulls n pulls org with
        | none => rfl
        | some org1 => simp only; exact ih org1

/-! ## No-occurrence replacement -/

lemma replaceAux_no_occurrence (pat rep : List Char) :
    ∀ (fuel : Nat) (s : List Char), containsSub pat s = false → replaceAux pat rep fuel s = s := by
  intro fuel
  induction fuel with
  | zero => intro s _; cases s <;> rfl
  | succ n ih =>
    intro s h
    cases s with
    | nil => rfl
    | cons c rest =>
      simp only [containsSub, Bool.or_eq_false_iff] at h
      simp only [replaceAux, h.1, Bool.and_false, Bool.false_eq_true, if_false]
      rw [ih rest h.2]

lemma strReplace_no_occurrence (s pat rep : String)
    (h : containsSub pat.data s.data = false) : strReplace s pat rep = s := by
  unfold strReplace
  rw [replaceAux_no_occurrence pat.data rep.data s.data.length s.data h]

/-! ## Claim theorems -/

/-- C1 counterexample: `widgets` has exactly one open pull request and it
has zero requested reviewers, yet the run succeeds with `widgets` present
in `Organization.repositories` — the repository is registered per pull
request, not per reviewer-bearing pull request. -/
theorem c1_counterexample_reviewerless_repo_registered :
    fetch_organization_data worldNoReviewers exForm = .ok exOrgOnlyWidgets ∧
      ({ name := "widgets" } : Repository) ∈ exOrgOnlyWidgets.repositories :=
  ⟨rfl, by simp [exOrgOnlyWidgets]⟩

/-- C1 amended: in every successful run, every entry of
`Organization.repositories` comes from a repository whose pull-request
body decoded to a non-empty list (so a repository with zero open pull
requests is never added), and conversely every listed repository whose
pull-request body decodes to a non-empty list — reviewer-bearing or not —
is registered. -/
theorem c1_amended_repo_registration (world : World) (form : Form) (org : Organization)
    (h : fetch_organization_data world form = .ok org) :
    (∀ repo ∈ org.repositories,
      ∃ st body pulls, world (pullsUrl form.organization repo.name) = .ok st body ∧
        decodePullList body = some pulls ∧ pulls ≠ []) ∧
    (∀ st0 body0 n st body pulls,
      world (repositoriesUrl form.organization) = .ok st0 body0 →
      n ∈ (decodeRepoList body0).getD [] →
      world (pullsUrl form.organization n) = .ok st body →
      decodePullList body = some pulls → pulls ≠ [] →
      ∃ repo ∈ org.repositories, repo.name = n) := by
  obtain ⟨st1, body1, hw1, hrun⟩ := fetch_ok_cases world form org h
  constructor
  · intro repo hrepo
    rcases repos_source_processRepos world form.organization _ _ org repo hrun hrepo with
      hmem | hsrc
    · cases hmem
    · exact hsrc
  · intro st0 body0 n st body pulls hw0 hn hw hd hne
    rw [hw1] at hw0
    cases hw0
    exact registers_processRepos world form.organization _ _ org n st body pulls hrun hn hw hd hne

/-- C1 witness: the amended theorem applied to the run in which `widgets`
has one reviewer-less open pull request. -/
theorem c1_amended_repo_registration_witness :
    (∀ repo ∈ exOrgOnlyWidgets.repositories,
      ∃ st body pulls, worldNoReviewers (pullsUrl exForm.organization repo.name) = .ok st body ∧
        decodePullList body = some pulls ∧ pulls ≠ []) ∧
    (∀ st0 body0 n st body pulls,
      worldNoReviewers (repositoriesUrl exForm.organization) = .ok st0 body0 →
      n ∈ (decodeRepoList body0).getD [] →
      worldNoReviewers (pullsUrl exForm.organization n) = .ok st body →
      decodePullList body = some pulls → pulls ≠ [] →
      ∃ repo ∈ exOrgOnlyWidgets.repositories, repo.name = n) :=
  c1_amended_repo_registration worldNoReviewers exForm exOrgOnlyWidgets rfl

/-- C2 counterexample: the repository-list request completes with HTTP
status 401, yet the run does not return a `NetworkError` — the status is
never inspected, the non-list body fails open to the empty repository
list, and an (empty) `Organization` is returned successfully. -/
theorem c2_counterexample_non2xx_not_network_error :
    worldStatus401 (repositoriesUrl exForm.organization) =
      .ok 401 (some (.obj [("message", .str "Bad credentials")])) ∧
    fetch_organization_data worldStatus401 exForm =
      .ok { reviewers := [], repositories := [] } :=
  ⟨rfl, rfl⟩

/-- C2 amended: `fetch_organization_data` never inspects the HTTP status
code of a completed response — rewriting every status (e.g. 200 into 401
or vice versa) leaves the result unchanged.  `NetworkError` messages
naming the URL arise only from transport (`send`) failures; a non-2xx
response is handled purely by the shape of its body. -/
theorem c2_amended_status_never_inspected (f : String → Nat) (world : World) (form : Form) :
    fetch_organization_data (setStatuses f world) form = fetch_organization_data world form := by
  unfold fetch_organization_data
  cases hw : world (repositoriesUrl form.organization) with
  | sendError =>
    have hs : setStatuses f world (repositoriesUrl form.organization) = .sendError := by
      simp [setStatuses, hw]
    rw [hs]
  | textError =>
    have hs : setStatuses f world (repositoriesUrl form.organization) = .textError := by
      simp [setStatuses, hw]
    rw [hs]
  | ok st body =>
    have hs : setStatuses f world (repositoriesUrl form.organization) =
        .ok (f (repositoriesUrl form.organization)) body := by
      simp [setStatuses, hw]
    rw [hs]
    simp only
    exact processRepos_setStatuses f world form.organization _ _

/-- C3: a pull request whose JSON has no `requested_reviewers` field makes
the run panic (`as_array(..).unwrap()` on `None`): the run neither
proceeds nor returns a `ParseError`. -/
theorem c3_missing_requested_reviewers_panics :
    fetch_organization_data worldMissingReviewers exForm = .error RunError.panic := rfl

/-- C4: in every successfully returned `Organization`, no two reviewers
share a `name` and no two repositories share a `name`, under exact
(case-sensitive, unnormalized) string equality — `List.Nodup` over the
plain `String` names. -/
theorem c4_dedup_names (world : World) (form : Form) (org : Organization)
    (h : fetch_organization_data world form = .ok org) :
    (org.reviewers.map Reviewer.name).Nodup ∧
      (org.repositories.map Repository.name).Nodup := by
  obtain ⟨st, body, _, hrun⟩ := fetch_ok_cases world form org h
  exact dedup_processRepos world form.organization _ _ org hrun ⟨by simp, by simp⟩

/-- C4 witness: the dedup theorem applied to the `alice` run. -/
theorem c4_dedup_names_witness :
    (exOrgAlice.reviewers.map Reviewer.name).Nodup ∧
      (exOrgAlice.repositories.map Repository.name).Nodup :=
  c4_dedup_names worldAlice exForm exOrgAlice rfl

/-- C5: an unparsable repository-list body yields a successful run with an
empty `Organization` (fail-open), while an unparsable pull-request body
for the first listed repository aborts the whole run with the parse
error. -/
theorem c5_failopen_repos_hardfail_pulls :
    (∀ (world : World) (form : Form) (st : Nat) (body : Option Json),
      world (repositoriesUrl form.organization) = .ok st body →
      decodeRepoList body = none →
      fetch_organization_data world form = .ok { reviewers := [], repositories := [] }) ∧
    (∀ (world : World) (form : Form) (st : Nat) (body : Option Json) (n : String)
        (rest : List String) (st' : Nat) (body' : Option Json),
      world (repositoriesUrl form.organization) = .ok st body →
      decodeRepoList body = some (n :: rest) →
      world (pullsUrl form.organization n) = .ok st' body' →
      decodePullList body' = none →
      fetch_organization_data world form = .error (.err "Failed to parse pull requests")) := by
  constructor
  · intro world form st body hw hd
    unfold fetch_organization_data
    rw [hw]
    simp only [hd, Option.getD_none]
    rfl
  · intro world form st body n rest st' body' hw hd hw' hd'
    unfold fetch_organization_data
    rw [hw]
    simp only [hd, Option.getD_some, processRepos]
    rw [hw']
    simp only [hd']

/-- C5 witness: the fail-open half applied to the 401 world (whose body is
not a repository list) and the hard-fail half applied to a world whose
pull-request body is not JSON. -/
theorem c5_failopen_repos_hardfail_pulls_witness :
    fetch_organization_data worldStatus401 exForm =
      .ok { reviewers := [], repositories := [] } ∧
    fetch_organization_data worldBadPulls exForm =
      .error (.err "Failed to parse pull requests") :=
  ⟨c5_failopen_repos_hardfail_pulls.1 worldStatus401 exForm 401
      (some (.obj [("message", .str "Bad credentials")])) rfl rfl,
    c5_failopen_repos_hardfail_pulls.2 worldBadPulls exForm 200 (some exRepoListBody)
      "widgets" [] 200 none rfl rfl rfl rfl⟩

/-- C6: the three-substitution rewrite sends the canonical API URL to the
human-facing one, a second application leaves the output unchanged, and on
any string containing none of the three target substrings the rewrite is
the identity. -/
theorem c6_url_rewrite :
    rewriteUrl "https://api.example.com/repos/acme/widgets/pulls/42" =
      "https://example.com/acme/widgets/pull/42" ∧
    rewriteUrl "https://example.com/acme/widgets/pull/42" =
      "https://example.com/acme/widgets/pull/42" ∧
    ∀ s : String, containsSub "api.".data s.data = false →
      containsSub "repos/".data s.data = false →
      containsSub "pulls".data s.data = false →
      rewriteUrl s = s := by
  refine ⟨rfl, rfl, ?_⟩
  intro s h1 h2 h3
  unfold rewriteUrl
  rw [strReplace_no_occurrence s _ _ h1, strReplace_no_occurrence s _ _ h2,
    strReplace_no_occurrence s _ _ h3]

/-- C6 witness: the no-op half of the rewrite theorem applied to a URL
free of all three target substrings. -/
theorem c6_url_rewrite_witness :
    rewriteUrl "https://example.com/a/b/pull/9" = "https://example.com/a/b/pull/9" :=
  c6_url_rewrite.2.2 "https://example.com/a/b/pull/9" (by decide) (by decide) (by decide)

/-- C7: a pull request whose `requested_reviewers` decodes to the list
`rs` (with a string `url`) adds exactly `rs.length` records in total, and
— when the serialized logins are pairwise distinct — appends exactly one
record, the same `reviewRecord` (same `id`, `url`, `repo_name`), to each
named reviewer's assignment list. -/
theorem c7_fanout (repoName : String) (pull : Json) (org : Organization) (rs : List Json)
    (u : String)
    (hrs : (pull.getField "requested_reviewers").asArray = some rs)
    (hu : (pull.getField "url").asStr = some u) :
    ∃ org', processPull repoName pull org = some org' ∧
      totalRecords org'.reviewers = totalRecords org.reviewers + rs.length ∧
      ((rs.map fun rv => Json.serialize (rv.getField "login")).Nodup →
        ∀ rv ∈ rs,
          assignedOf (Json.serialize (rv.getField "login")) org'.reviewers =
            assignedOf (Json.serialize (rv.getField "login")) org.reviewers ++
              [reviewRecord pull u repoName]) := by
  refine ⟨⟨foldUpsert pull u repoName rs org.reviewers,
           pushRepoIfAbsent repoName org.repositories⟩, ?_, ?_, ?_⟩
  · unfold processPull
    rw [hrs]
    exact processReviewers_eq repoName pull u hu rs _
  · exact totalRecords_foldUpsert pull u repoName rs org.reviewers
  · intro hnd rv hrv
    exact assignedOf_foldUpsert_fanout pull u repoName rs org.reviewers hnd rv hrv

/-- C7 witness: the fan-out theorem applied to a pull request requesting
`alice` and `bob`, from the empty accumulator. -/
theorem c7_fanout_witness :
    ∃ org', processPull "gadgets" exPullTwoReviewers
        { reviewers := [], repositories := [] } = some org' ∧
      totalRecords org'.reviewers =
        totalRecords ({ reviewers := [], repositories := [] } : Organization).reviewers +
          ([Json.obj [("login", .str "alice")], Json.obj [("login", .str "bob")]] : List Json).length ∧
      ((([Json.obj [("login", .str "alice")], Json.obj [("login", .str "bob")]] : List Json).map
          fun rv => Json.serialize (rv.getField "login")).Nodup →
        ∀ rv ∈ ([Json.obj [("login", .str "alice")], Json.obj [("login", .str "bob")]] : List Json),
          assignedOf (Json.serialize (rv.getField "login")) org'.reviewers =
            assignedOf (Json.serialize (rv.getField "login"))
              ({ reviewers := [], repositories := [] } : Organization).reviewers ++
              [reviewRecord exPullTwoReviewers
                "https://api.github.com/repos/acme/gadgets/pulls/7" "gadgets"]) :=
  c7_fanout "gadgets" exPullTwoReviewers { reviewers := [], repositories := [] }
    [Json.obj [("login", .str "alice")], Json.obj [("login", .str "bob")]]
    "https://api.github.com/repos/acme/gadgets/pulls/7" rfl rfl

/-- C8 counterexample: for the API login `alice`, the stored
`Reviewer.name` is the seven-character string `"alice"` — the JSON
serialization, with surrounding quote characters — not the raw
five-character login `alice`. -/
theorem c8_counterexample_name_is_serialized :
    fetch_organization_data worldAlice exForm = .ok exOrgAlice ∧
    exOrgAlice.reviewers.map Reviewer.name = ["\"alice\""] ∧
    ("\"alice\"" : String) ≠ "alice" :=
  ⟨rfl, rfl, by decide⟩

/-- C8 amended: the identity under which a requested reviewer is stored
and looked up is `Json.serialize` of the `login` value — for a string
login, the login wrapped in quote characters (e.g. `"alice"`, serialized
as `\"alice\"`) — and the record is appended under that serialized
identity; quote characters are stripped only at render time. -/
theorem c8_amended_serialized_identity (repoName : String) (pull rv : Json)
    (org : Organization) (u : String)
    (hu : (pull.getField "url").asStr = some u) :
    (∃ org', processReviewer repoName pull rv org = some org' ∧
      assignedOf (Json.serialize (rv.getField "login")) org'.reviewers =
        assignedOf (Json.serialize (rv.getField "login")) org.reviewers ++
          [reviewRecord pull u repoName]) ∧
    Json.serialize (.str "alice") = "\"alice\"" := by
  refine ⟨⟨_, processReviewer_eq repoName pull rv org u hu, ?_⟩, rfl⟩
  exact assignedOf_upsert_self _ _ org.reviewers

/-- C8 witness: the amended theorem applied to the `alice` pull request
from the empty accumulator. -/
theorem c8_amended_serialized_identity_witness :
    (∃ org', processReviewer "widgets" exPullAlice (.obj [("login", .str "alice")])
        { reviewers := [], repositories := [] } = some org' ∧
      assignedOf (Json.serialize ((Json.obj [("login", .str "alice")]).getField "login"))
          org'.reviewers =
        assignedOf (Json.serialize ((Json.obj [("login", .str "alice")]).getField "login"))
          ({ reviewers := [], repositories := [] } : Organization).reviewers ++
          [reviewRecord exPullAlice "https://api.github.com/repos/acme/widgets/pulls/1"
            "widgets"]) ∧
    Json.serialize (.str "alice") = "\"alice\"" :=
  c8_amended_serialized_identity "widgets" exPullAlice (.obj [("login", .str "alice")])
    { reviewers := [], repositories := [] }
    "https://api.github.com/repos/acme/widgets/pulls/1" rfl

/-- C9: in every successfully returned `Organization`, the `repo_name` of
every record in every reviewer's assignment list names some entry of
`repositories`. -/
theorem c9_repo_name_closed (world : World) (form : Form) (org : Organization)
    (h : fetch_organization_data world form = .ok org) :
    ∀ r ∈ org.reviewers, ∀ pr ∈ r.assigned_pull_requests,
      ∃ repo ∈ org.repositories, repo.name = pr.repo_name := by
  obtain ⟨st, body, _, hrun⟩ := fetch_ok_cases world form org h
  exact repoClosed_processRepos world form.organization _ _ org hrun (by intro r hr; cases hr)

/-- C9 witness: the closure theorem applied to the two-repository
null-login run, instantiated at the `null` reviewer's first record. -/
theorem c9_repo_name_closed_witness :
    ∃ repo ∈ exOrgNullLogins.repositories, repo.name = "w1" :=
  c9_repo_name_closed worldNullLogins exForm exOrgNullLogins rfl
    { name := "null",
      assigned_pull_requests :=
        [{ id := "1", url := "https://github.com/acme/w1/pull/1", repo_name := "w1" },
         { id := "7", url := "https://github.com/acme/w2/pull/7", repo_name := "w2" }] }
    (by simp [exOrgNullLogins])
    { id := "1", url := "https://github.com/acme/w1/pull/1", repo_name := "w1" }
    (by simp)

/-- C10: a requested-reviewer entry whose `login` indexes to `Null` does
not fail the run: the record is appended under the reviewer identity
`"null"` (the serialization of `Null`), so all such entries share one
reviewer; concretely, two pull requests in two repositories with
login-less reviewer entries produce a single reviewer named `null`
holding both records. -/
theorem c10_missing_login_collapses_to_null (repoName : String) (pull rv : Json)
    (org : Organization) (u : String)
    (hlogin : rv.getField "login" = Json.null)
    (hu : (pull.getField "url").asStr = some u) :
    (∃ org', processReviewer repoName pull rv org = some org' ∧
      assignedOf "null" org'.reviewers =
        assignedOf "null" org.reviewers ++ [reviewRecord pull u repoName]) ∧
    fetch_organization_data worldNullLogins exForm = .ok exOrgNullLogins := by
  refine ⟨⟨_, processReviewer_eq repoName pull rv org u hu, ?_⟩, rfl⟩
  rw [hlogin]
  exact assignedOf_upsert_self _ _ org.reviewers

/-- C10 witness: the null-login theorem applied to the `w1` pull request
from the empty accumulator. -/
theorem c10_missing_login_collapses_to_null_witness :
    (∃ org', processReviewer "w1" exPullNullLogin1 exReviewerNoLogin
        { reviewers := [], repositories := [] } = some org' ∧
      assignedOf "null" org'.reviewers =
        assignedOf "null" ({ reviewers := [], repositories := [] } : Organization).reviewers ++
          [reviewRecord exPullNullLogin1 "https://api.github.com/repos/acme/w1/pulls/1" "w1"]) ∧
    fetch_organization_data worldNullLogins exForm = .ok exOrgNullLogins :=
  c10_missing_login_collapses_to_null "w1" exPullNullLogin1 exReviewerNoLogin
    { reviewers := [], repositories := [] }
    "https://api.github.com/repos/acme/w1/pulls/1" rfl rfl
